import Mathlib

/-!
The terraform executor of bosh-bootloader.

A shallow embedding of `terraform/executor.go` and a verification of its
specification.  Go strings are Lean strings (valid UTF-8 text, read character
by character); an `error` value is identified with its message; a Go map is
given by its entries, and a `range` over a map receives those entries in the
order in which that particular loop visits them (Go leaves the order
unspecified, so every order is possible).  The three collaborators of the
executor (command runner, state store, file system) are records of functions,
and every operation returns, next to its Go result, the list of collaborator
calls it has issued.
-/

namespace terraform

/-! ## The Go library functions used by the executor -/

/-- A Go `error`, identified with the text its `Error()` method returns. -/
abbrev error := String

namespace strings

/-- Go `strings.Join(elems, sep)`. -/
def Join : List String → String → String
  | [], _ => ""
  | [a], _ => a
  | a :: b :: rest, sep => a ++ sep ++ Join (b :: rest) sep

/-- Go `strings.HasSuffix(s, suffix)`. -/
def HasSuffix (s suffix : String) : Bool :=
  suffix.data.isSuffixOf s.data

/-- Scan for `strings.Contains`: does `sub` start at some position of the input? -/
def containsFrom (sub : List Char) : List Char → Bool
  | [] => sub.isEmpty
  | c :: cs => sub.isPrefixOf (c :: cs) || containsFrom sub cs

/-- Go `strings.Contains(s, substr)`. -/
def Contains (s substr : String) : Bool :=
  containsFrom substr.data s.data

/-- Scan for `strings.Replace` with a non-empty `old`: `limit` is the number of
replacements still allowed (`none` for no limit), `skip` the number of
characters of an occurrence just replaced that remain to be passed over. -/
def replaceFrom (old new : List Char) : Option Nat → Nat → List Char → List Char
  | _, _, [] => []
  | limit, skip + 1, _ :: cs => replaceFrom old new limit skip cs
  | limit, 0, c :: cs =>
    if limit ≠ some 0 ∧ old.isPrefixOf (c :: cs) = true then
      new ++ replaceFrom old new (limit.map (· - 1)) (old.length - 1) cs
    else
      c :: replaceFrom old new limit 0 cs

/-- Go `strings.Replace(s, old, new, n)` for a non-empty `old`: the first `n`
non-overlapping occurrences of `old`, found from the left, are replaced by
`new`; a negative `n` means all of them. -/
def Replace (s old new : String) (n : Int) : String :=
  ⟨replaceFrom old.data new.data (if n < 0 then none else some n.toNat) 0 s.data⟩

/-- Go `strings.TrimSuffix(s, suffix)`. -/
def TrimSuffix (s suffix : String) : String :=
  if HasSuffix s suffix then ⟨s.data.take (s.data.length - suffix.data.length)⟩ else s

end strings

namespace filepath

/-- The elements of a path between its separators, as `strings.Split(path, "/")`
lists them. -/
def splitSlash : List Char → List (List Char)
  | [] => [[]]
  | c :: cs =>
    match splitSlash cs with
    | [] => [[c]]
    | e :: es => if c = '/' then [] :: e :: es else (c :: e) :: es

/-- One element met by `filepath.Clean`; `kept` holds the elements retained so
far, the last one first.  Empty and `.` elements are dropped; `..` removes the
element before it, is dropped at the root, and is kept at the start of a
relative path (where only `..` elements precede it). -/
def cleanStep (rooted : Bool) (kept : List String) (elem : String) : List String :=
  if elem = "" ∨ elem = "." then kept
  else if elem = ".." then
    match kept with
    | [] => if rooted then [] else [".."]
    | top :: below => if top = ".." then ".." :: top :: below else below
  else elem :: kept

/-- Go `filepath.Clean(path)` with `/` as the separator: the shortest path
equivalent to `path` by purely lexical processing. -/
def Clean (path : String) : String :=
  if path = "" then "."
  else
    let rooted := path.data.head? = some '/'
    let kept := ((splitSlash path.data).map String.mk).foldl (cleanStep rooted) []
    let out := (if rooted then "/" else "") ++ strings.Join kept.reverse "/"
    if out = "" then "." else out

/-- Go `filepath.Join(elem...)`: leading empty elements are ignored, the rest is
joined with `/` and cleaned; the result is empty when every element is. -/
def Join : List String → String
  | [] => ""
  | e :: rest => if e = "" then Join rest else Clean (strings.Join (e :: rest) "/")

end filepath

/-- A dynamic value held in a Go `interface{}`: the dynamic types covered are
`string`, `[]string`, `int` and `bool`. -/
inductive Value where
  | string (s : String)
  | strings (l : List String)
  | int (n : Int)
  | bool (b : Bool)
  deriving DecidableEq, Repr

namespace fmt

/-- The text Go's `fmt` prints for an operand under the verb `%s`: a string is
printed as it is, a slice of strings as its elements between brackets separated
by spaces, and an operand the verb does not apply to as `%!s(type=value)`. -/
def verbS : Value → String
  | .string s => s
  | .strings l => "[" ++ strings.Join l " " ++ "]"
  | .int n => "%!s(int=" ++ toString n ++ ")"
  | .bool b => "%!s(bool=" ++ toString b ++ ")"

end fmt

/-! ## The executor -/

/-- The message that replaces a failure of the command in non-debug mode
(`redactedError`). -/
def redactedError : String :=
  "Some output has been redacted, use `bbl latest-error` to see it or run again with --debug for additional debug output"

/-- Go `formatVars(inputs)`; `inputs` lists the entries of the map in the order
in which `range` visits them. -/
def formatVars (inputs : List (String × Value)) : String :=
  inputs.foldl (fun formattedVars entry =>
    let name := entry.1
    let value : Value :=
      match entry.2 with
      | .string vString =>
        let vString := "\"" ++ vString ++ "\""
        let vString :=
          if strings.Contains vString "\n" then strings.Replace vString "\n" "\\n" (-1)
          else vString
        .string vString
      | .strings valList => .string ("[\"" ++ strings.Join valList "\",\"" ++ "\"]")
      | other => other
    formattedVars ++ "\n" ++ name ++ "=" ++ fmt.verbS value) ""

/-- What one run of the terraform command leaves behind: the text it wrote to
the writer it was given, and its error (`none` for `nil`). -/
structure RunResult where
  output : String
  err : Option error

/-- The writer handed to the command: the process's standard output, or a
buffer the executor reads back. -/
inductive Sink where
  | Stdout
  | Buffer
  deriving DecidableEq, Repr

/-- Go interface `terraformCmd`: `Run(stdout, args, debug)`. -/
structure terraformCmd where
  Run : List String → Bool → RunResult

/-- Go interface `stateStore`. -/
structure stateStore where
  GetTerraformDir : Except error String
  GetVarsDir : Except error String

/-- An `os.FileInfo`, of which the executor reads the name only. -/
structure FileInfo where
  Name : String
  deriving DecidableEq, Repr

/-- Go interface `fs`: `WriteFile(path, data, perm)`, `ReadDir(path)` and
`Stat(path)`. -/
structure fs where
  WriteFile : String → String → Nat → Option error
  ReadDir : String → Except error (List FileInfo)
  Stat : String → Except error FileInfo

/-- Go struct `Executor`. -/
structure Executor where
  cmd : terraformCmd
  stateStore : terraform.stateStore
  fs : terraform.fs
  debug : Bool

/-- Go struct `tfOutput`. -/
structure tfOutput where
  Sensitive : Bool
  Type_ : String
  Value : terraform.Value
  deriving DecidableEq, Repr

/-- Go `NewExecutor`. -/
def NewExecutor (cmd : terraformCmd) (stateStore : terraform.stateStore) (fs : terraform.fs)
    (debug : Bool) : Executor :=
  { cmd := cmd, stateStore := stateStore, fs := fs, debug := debug }

/-- A call issued by the executor to a collaborator or to the operating system. -/
inductive Effect where
  | WriteFile (path : String) (data : String) (perm : Nat)
  | ReadDir (path : String)
  | Stat (path : String)
  | MkdirAll (path : String) (perm : Nat)
  | Run (stdout : Sink) (args : List String) (debug : Bool)
  deriving DecidableEq, Repr

/-- The calls an operation has issued, in order, and the values it returns. -/
structure Outcome (α : Type) where
  effects : List Effect
  result : α
  deriving DecidableEq, Repr

/-- Go `os.ModePerm`. -/
def os.ModePerm : Nat := 0o777

/-- Go `Executor.Setup(template, input)`.  `StateMode` is the constant
`storage.StateMode`, declared outside this file's sources and only passed on to
`WriteFile`; `MkdirAll` is the behaviour of `os.MkdirAll`; `input` lists the
entries of the map in the order `formatVars` visits them. -/
def Executor.Setup (StateMode : Nat) (MkdirAll : String → Nat → Option error) (e : Executor)
    (template : String) (input : List (String × Value)) : Outcome (Option error) :=
  match e.stateStore.GetTerraformDir with
  | .error err => ⟨[], some ("Get terraform dir: " ++ err)⟩
  | .ok terraformDir =>
    let w1 := Effect.WriteFile (filepath.Join [terraformDir, "bbl-template.tf"]) template StateMode
    match e.fs.WriteFile (filepath.Join [terraformDir, "bbl-template.tf"]) template StateMode with
    | some err => ⟨[w1], some ("Write terraform template: " ++ err)⟩
    | none =>
      match e.stateStore.GetVarsDir with
      | .error err => ⟨[w1], some ("Get vars dir: " ++ err)⟩
      | .ok varsDir =>
        let m := Effect.MkdirAll (filepath.Join [terraformDir, ".terraform"]) os.ModePerm
        match MkdirAll (filepath.Join [terraformDir, ".terraform"]) os.ModePerm with
        | some err => ⟨[w1, m], some ("Create .terraform directory: " ++ err)⟩
        | none =>
          let w2 := Effect.WriteFile (filepath.Join [terraformDir, ".terraform", ".gitignore"])
            "*\n" StateMode
          match e.fs.WriteFile (filepath.Join [terraformDir, ".terraform", ".gitignore"])
              "*\n" StateMode with
          | some err => ⟨[w1, m, w2], some ("Write .gitignore for terraform binaries: " ++ err)⟩
          | none =>
            let w3 := Effect.WriteFile (filepath.Join [varsDir, "bbl.tfvars"])
              (formatVars input) StateMode
            match e.fs.WriteFile (filepath.Join [varsDir, "bbl.tfvars"])
                (formatVars input) StateMode with
            | some err => ⟨[w1, m, w2, w3], some ("Write terraform vars: " ++ err)⟩
            | none => ⟨[w1, m, w2, w3], none⟩

/-- Go `Executor.runTFCommand(args)`. -/
def Executor.runTFCommand (e : Executor) (args : List String) : Outcome (Option error) :=
  match e.stateStore.GetVarsDir with
  | .error err => ⟨[], some ("Get vars dir: " ++ err)⟩
  | .ok varsDir =>
    let tfStatePath := filepath.Join [varsDir, "terraform.tfstate"]
    let args := args ++ ["-state", tfStatePath]
    match e.fs.ReadDir varsDir with
    | .error err => ⟨[.ReadDir varsDir], some ("Read contents of vars directory: " ++ err)⟩
    | .ok varsFiles =>
      let args := varsFiles.foldl (fun args file =>
        if strings.HasSuffix file.Name ".tfvars" then
          args ++ ["-var-file", filepath.Join [varsDir, file.Name]]
        else args) args
      match e.stateStore.GetTerraformDir with
      | .error err => ⟨[.ReadDir varsDir], some ("Get terraform dir: " ++ err)⟩
      | .ok terraformDir =>
        let args := args ++ [terraformDir]
        match (e.cmd.Run args e.debug).err with
        | some err =>
          ⟨[.ReadDir varsDir, .Run .Stdout args e.debug],
            if e.debug then some err else some redactedError⟩
        | none => ⟨[.ReadDir varsDir, .Run .Stdout args e.debug], none⟩

/-- Go `Executor.Init()`. -/
def Executor.Init (e : Executor) : Outcome (Option error) :=
  match e.stateStore.GetTerraformDir with
  | .error err => ⟨[], some ("Get terraform dir: " ++ err)⟩
  | .ok terraformDir =>
    match (e.cmd.Run ["init", terraformDir] e.debug).err with
    | some err =>
      ⟨[.Run .Stdout ["init", terraformDir] e.debug], some ("Run terraform init: " ++ err)⟩
    | none => ⟨[.Run .Stdout ["init", terraformDir] e.debug], none⟩

/-- Go `Executor.Apply(credentials)`; `credentials` lists the entries of the map
in the order `range` visits them. -/
def Executor.Apply (e : Executor) (credentials : List (String × String)) :
    Outcome (Option error) :=
  let args := credentials.foldl (fun args entry =>
    let arg := entry.1 ++ "=" ++ entry.2
    args ++ ["-var", arg]) ["apply", "--auto-approve"]
  e.runTFCommand args

/-- Go `Executor.Destroy(credentials)`; `credentials` lists the entries of the map
in the order `range` visits them. -/
def Executor.Destroy (e : Executor) (credentials : List (String × String)) :
    Outcome (Option error) :=
  let args := credentials.foldl (fun args entry =>
    let arg := entry.1 ++ "=" ++ entry.2
    args ++ ["-var", arg]) ["destroy", "-force"]
  e.runTFCommand args

namespace regexp

/-- The two kinds of item the pattern of `Version` is made of: `\d+` (one or
more ASCII digits, as many as possible first) and `.` (any character but a
newline). -/
inductive Item where
  | digits
  | any
  deriving DecidableEq, Repr

/-- The text a pattern matches at the very start of the input, found the way
Go's `regexp` prefers among the matches starting there: each `\d+` takes the
longest run of digits with which the rest of the pattern still matches. -/
def matchHere : List Item → List Char → Option (List Char)
  | [], _ => some []
  | .any :: _, [] => none
  | .any :: rest, c :: cs => if c = '\n' then none else (matchHere rest cs).map (c :: ·)
  | .digits :: rest, input =>
    ((List.range (input.takeWhile Char.isDigit).length).reverse.map (· + 1)).findSome? fun k =>
      (matchHere rest (input.drop k)).map (input.take k ++ ·)

/-- The leftmost match of a pattern in the input. -/
def find (pattern : List Item) : List Char → Option (List Char)
  | [] => matchHere pattern []
  | c :: cs =>
    match matchHere pattern (c :: cs) with
    | some m => some m
    | none => find pattern cs

/-- Go `regexp.FindString`: the text of the leftmost match, or the empty string
when there is none. -/
def FindString (pattern : List Item) (s : String) : String :=
  match find pattern s.data with
  | some m => ⟨m⟩
  | none => ""

end regexp

/-- The pattern `\d+.\d+.\d+` compiled in `Version`. -/
def versionRegex : List regexp.Item := [.digits, .any, .digits, .any, .digits]

/-- Go `Executor.Version()`. -/
def Executor.Version (e : Executor) : Outcome (String × Option error) :=
  let buffer := e.cmd.Run ["version"] true
  match buffer.err with
  | some err => ⟨[.Run .Buffer ["version"] true], ("", some err)⟩
  | none =>
    let versionOutput := buffer.output
    let version := regexp.FindString versionRegex versionOutput
    if version = "" then
      ⟨[.Run .Buffer ["version"] true], ("", some "Terraform version could not be parsed")⟩
    else ⟨[.Run .Buffer ["version"] true], (version, none)⟩

/-- Go `Executor.Output(outputName)`. -/
def Executor.Output (e : Executor) (outputName : String) : Outcome (String × Option error) :=
  match e.stateStore.GetTerraformDir with
  | .error err => ⟨[], ("", some ("Get terraform dir: " ++ err))⟩
  | .ok terraformDir =>
    match e.stateStore.GetVarsDir with
    | .error err => ⟨[], ("", some ("Get vars dir: " ++ err))⟩
    | .ok varsDir =>
      let init := Effect.Run .Stdout ["init", terraformDir] e.debug
      match (e.cmd.Run ["init", terraformDir] e.debug).err with
      | some err => ⟨[init], ("", some ("Run terraform init in terraform dir: " ++ err))⟩
      | none =>
        let args := ["output", outputName, "-state",
          filepath.Join [varsDir, "terraform.tfstate"], terraformDir]
        let buffer := e.cmd.Run args true
        match buffer.err with
        | some err =>
          ⟨[init, .Run .Buffer args true], ("", some ("Run terraform output -state: " ++ err))⟩
        | none => ⟨[init, .Run .Buffer args true], (strings.TrimSuffix buffer.output "\n", none)⟩

/-- Go map assignment `m[k] = v`, on a map given by its entries: the value of a
key already present is replaced, a new key is added. -/
def mapAssign (m : List (String × Value)) (k : String) (v : Value) : List (String × Value) :=
  if m.any (fun entry => entry.1 = k) then
    m.map (fun entry => if entry.1 = k then (k, v) else entry)
  else m ++ [(k, v)]

/-- Go `Executor.Outputs()`.  `Unmarshal` is the behaviour of
`json.Unmarshal(data, &tfOutputs)` on a `map[string]tfOutput`: an error, or the
decoded map, given by its entries in the order the following `range` visits
them. -/
def Executor.Outputs (Unmarshal : String → Except error (List (String × tfOutput)))
    (e : Executor) : Outcome (List (String × Value) × Option error) :=
  match e.stateStore.GetVarsDir with
  | .error err => ⟨[], ([], some ("Get vars dir: " ++ err))⟩
  | .ok varsDir =>
    let init := Effect.Run .Stdout ["init", varsDir] false
    match (e.cmd.Run ["init", varsDir] false).err with
    | some err => ⟨[init], ([], some ("Run terraform init in vars dir: " ++ err))⟩
    | none =>
      let args := ["output", "--json", "-state", filepath.Join [varsDir, "terraform.tfstate"]]
      let buffer := e.cmd.Run args true
      match buffer.err with
      | some err =>
        ⟨[init, .Run .Buffer args true],
          ([], some ("Run terraform output --json in vars dir: " ++ err))⟩
      | none =>
        match Unmarshal buffer.output with
        | .error err =>
          ⟨[init, .Run .Buffer args true], ([], some ("Unmarshal terraform output: " ++ err))⟩
        | .ok tfOutputs =>
          let outputs := tfOutputs.foldl (fun outputs entry =>
            mapAssign outputs entry.1 entry.2.Value) []
          ⟨[init, .Run .Buffer args true], (outputs, none)⟩

/-- Go `Executor.IsPaved()`. -/
def Executor.IsPaved (e : Executor) : Outcome (Bool × Option error) :=
  match e.stateStore.GetVarsDir with
  | .error err => ⟨[], (false, some ("Get vars dir: " ++ err))⟩
  | .ok varsDir =>
    match e.fs.Stat (filepath.Join [varsDir, "terraform.tfstate"]) with
    | .error _ => ⟨[.Stat (filepath.Join [varsDir, "terraform.tfstate"])], (false, none)⟩
    | .ok _ => ⟨[.Stat (filepath.Join [varsDir, "terraform.tfstate"])], (true, none)⟩

/-! ## The specification's reading of the assembled command -/

/-- The credential flags the specification describes: one `-var name=value`
pair per credential, in the order given. -/
def specCredentialFlags (credentials : List (String × String)) : List String :=
  credentials.flatMap fun entry => ["-var", entry.1 ++ "=" ++ entry.2]

/-- The `-var-file` flags the specification describes: one pair for each entry
of the listing whose name ends in `.tfvars`, in listing order. -/
def specVarFileFlags (varsDir : String) (listing : List FileInfo) : List String :=
  (listing.filter fun file => strings.HasSuffix file.Name ".tfvars").flatMap fun file =>
    ["-var-file", filepath.Join [varsDir, file.Name]]

/-- The argument list the specification describes: the base arguments, the
`-state` flag with the state file's path, the `-var-file` flags, and the working
directory last. -/
def specArgs (base : List String) (varsDir terraformDir : String) (listing : List FileInfo) :
    List String :=
  base ++ ["-state", filepath.Join [varsDir, "terraform.tfstate"]] ++
    specVarFileFlags varsDir listing ++ [terraformDir]

/-! ## Concrete collaborators -/

/-- A listing of the variables directory: two `.tfvars` files and one unrelated
file between them. -/
def sampleListing : List FileInfo := [⟨"a.tfvars"⟩, ⟨"notes.txt"⟩, ⟨"b.tfvars"⟩]

/-- A state store whose two lookups succeed. -/
def sampleStore : stateStore :=
  { GetTerraformDir := .ok "/env/terraform", GetVarsDir := .ok "/env/vars" }

/-- A state store whose variables-directory lookup fails. -/
def noVarsDirStore : stateStore :=
  { GetTerraformDir := .ok "/env/terraform", GetVarsDir := .error "no state directory" }

/-- A file system whose writes succeed, that lists `sampleListing` and on which
`Stat` succeeds for the paths in `existing` only. -/
def sampleFs (existing : List String) : fs :=
  { WriteFile := fun _ _ _ => none
    ReadDir := fun _ => .ok sampleListing
    Stat := fun path => if path ∈ existing then .ok ⟨"terraform.tfstate"⟩ else .error "no such file" }

/-- A command that writes `output` and returns `err`, whatever its arguments. -/
def constCmd (output : String) (err : Option error) : terraformCmd :=
  { Run := fun _ _ => ⟨output, err⟩ }

/-- A state store whose working-directory lookup fails. -/
def noTerraformDirStore : stateStore :=
  { GetTerraformDir := .error "no state directory", GetVarsDir := .ok "/env/vars" }

/-- An `os.MkdirAll` that succeeds. -/
def mkdirOk : String → Nat → Option error := fun _ _ => none

/-- The text of the specification's example of structured output. -/
def sampleOutputsJSON : String :=
  "\x7b\"foo\":\x7b\"sensitive\":false,\"type\":\"string\",\"value\":\"bar\"\x7d\x7d"

/-- The decoding `json.Unmarshal` performs on `sampleOutputsJSON`: one output
`foo`, not sensitive, of type `string`, with value `bar`. -/
def sampleUnmarshal : String → Except error (List (String × tfOutput)) := fun data =>
  if data = sampleOutputsJSON then
    .ok [("foo", { Sensitive := false, Type_ := "string", Value := .string "bar" })]
  else .error "invalid character"

/-! ## Lemmas -/

/-- The redaction message holds no `%`, so `fmt.Errorf(redactedError)` returns an
error with exactly that message. -/
theorem redactedError_no_verb : '%' ∉ redactedError.data := by
  decide

theorem strings.replaceFrom_newline_cons (new : List Char) (c : Char) (cs : List Char) :
    replaceFrom ['\n'] new none 0 (c :: cs)
      = (if c = '\n' then new else [c]) ++ replaceFrom ['\n'] new none 0 cs := by
  by_cases h : c = '\n'
  · subst h
    simp [replaceFrom, List.isPrefixOf]
  · have h2 : ¬ '\n' = c := fun h3 => h h3.symm
    simp [replaceFrom, List.isPrefixOf, h, h2]

theorem strings.replaceFrom_newline_append (new l1 l2 : List Char) :
    replaceFrom ['\n'] new none 0 (l1 ++ l2)
      = replaceFrom ['\n'] new none 0 l1 ++ replaceFrom ['\n'] new none 0 l2 := by
  induction l1 with
  | nil => simp [replaceFrom]
  | cons c cs ih =>
    rw [List.cons_append, replaceFrom_newline_cons, replaceFrom_newline_cons, ih]
    simp

theorem strings.replaceFrom_newline_absent (new l : List Char) (h : containsFrom ['\n'] l = false) :
    replaceFrom ['\n'] new none 0 l = l := by
  induction l with
  | nil => simp [replaceFrom]
  | cons c cs ih =>
    simp only [containsFrom, Bool.or_eq_false_iff] at h
    have hc : c ≠ '\n' := by
      intro hc
      subst hc
      simp [List.isPrefixOf] at h
    rw [replaceFrom_newline_cons, ih h.2]
    simp [hc]

theorem strings.newline_not_mem_escaped (l : List Char) :
    '\n' ∉ replaceFrom ['\n'] ['\\', 'n'] none 0 l := by
  induction l with
  | nil => simp [replaceFrom]
  | cons c cs ih =>
    rw [replaceFrom_newline_cons]
    by_cases hc : c = '\n'
    · simp [hc, ih]
    · have h2 : ¬ '\n' = c := fun h3 => hc h3.symm
      simp [hc, h2, ih]

theorem strings.unescape_escaped (l t : List Char) (h : containsFrom ['\\', 'n'] l = false)
    (ht : t.head? ≠ some 'n') :
    replaceFrom ['\\', 'n'] ['\n'] none 0 (replaceFrom ['\n'] ['\\', 'n'] none 0 l ++ t)
      = l ++ replaceFrom ['\\', 'n'] ['\n'] none 0 t := by
  induction l with
  | nil => simp [replaceFrom]
  | cons c cs ih =>
    simp only [containsFrom, Bool.or_eq_false_iff] at h
    rw [replaceFrom_newline_cons]
    by_cases hc : c = '\n'
    · subst hc
      simp [replaceFrom, List.isPrefixOf, ih h.2]
    · simp only [hc, if_false, List.singleton_append, List.cons_append]
      have hno : List.isPrefixOf ['\\', 'n']
          (c :: (replaceFrom ['\n'] ['\\', 'n'] none 0 cs ++ t)) = false := by
        by_cases hb : c = '\\'
        · subst hb
          cases cs with
          | nil =>
            cases t with
            | nil => simp [replaceFrom, List.isPrefixOf]
            | cons d ds =>
              have hd : d ≠ 'n' := by simpa using ht
              have hd2 : ¬ 'n' = d := fun h3 => hd h3.symm
              simp [replaceFrom, List.isPrefixOf, hd2]
          | cons d ds =>
            have hd : d ≠ 'n' := by
              intro hd
              subst hd
              simp [List.isPrefixOf] at h
            have hd2 : ¬ 'n' = d := fun h3 => hd h3.symm
            rw [replaceFrom_newline_cons]
            by_cases hn : d = '\n'
            · simp [hn, List.isPrefixOf]
            · simp [hn, List.isPrefixOf, hd2]
        · have hb2 : ¬ '\\' = c := fun h3 => hb h3.symm
          simp [List.isPrefixOf, hb2]
      simp [replaceFrom, hno, ih h.2]

theorem strings.Join_concat (l : List String) (n sep : String) (hl : l ≠ []) :
    Join (l ++ [n]) sep = Join l sep ++ sep ++ n := by
  induction l with
  | nil => exact absurd rfl hl
  | cons a rest ih =>
    cases rest with
    | nil => simp [Join]
    | cons b rest =>
      have h := ih (by simp)
      simp only [List.cons_append] at h ⊢
      simp only [Join] at h ⊢
      rw [h]
      simp only [String.append_assoc]

theorem filepath.splitSlash_plain (n : List Char) (hn : '/' ∉ n) : splitSlash n = [n] := by
  induction n with
  | nil => rfl
  | cons c cs ih =>
    simp only [List.mem_cons, not_or] at hn
    have hc : ¬ c = '/' := fun h => hn.1 h.symm
    simp [splitSlash, ih hn.2, hc]

theorem filepath.splitSlash_ne_nil (l : List Char) : splitSlash l ≠ [] := by
  cases l with
  | nil => simp [splitSlash]
  | cons c cs =>
    unfold splitSlash
    split
    · simp
    · split <;> simp

theorem filepath.splitSlash_append (v n : List Char) (hn : '/' ∉ n) :
    splitSlash (v ++ '/' :: n) = splitSlash v ++ [n] := by
  induction v with
  | nil => simp [splitSlash, splitSlash_plain n hn]
  | cons c cs ih =>
    rw [List.cons_append]
    unfold splitSlash
    rw [ih]
    cases hs : splitSlash cs with
    | nil => exact absurd hs (splitSlash_ne_nil cs)
    | cons e es =>
      by_cases hc : c = '/'
      · simp [hc]
      · simp [hc]

/-- Joining a directory path that is already clean (and is neither the root nor
`.`) with a plain file name puts a single separator between them. -/
theorem filepath.Join_clean_dir (v n : String) (hv : Clean v = v) (hroot : v ≠ "/")
    (hdot : v ≠ ".") (hslash : '/' ∉ n.data) (hne : n ≠ "") (hn1 : n ≠ ".") (hn2 : n ≠ "..") :
    Join [v, n] = v ++ "/" ++ n := by
  have hvne : v ≠ "" := by
    intro h
    rw [h] at hv
    exact absurd hv (by decide)
  have hpne : v ++ "/" ++ n ≠ "" := by
    intro h
    have := congrArg String.length h
    simp at this
    exact absurd this.1.2 (by decide)
  have hjoin : Join [v, n] = Clean (v ++ "/" ++ n) := by
    simp [Join, hvne, strings.Join]
  rw [hjoin]
  have hhead : (v ++ "/" ++ n).data.head? = v.data.head? := by
    have : v.data ≠ [] := fun h => hvne (String.ext h)
    cases hd : v.data with
    | nil => exact absurd hd this
    | cons c cs => simp [String.data_append, hd]
  have hsplit : (splitSlash (v ++ "/" ++ n).data).map String.mk
      = (splitSlash v.data).map String.mk ++ [n] := by
    have : (v ++ "/" ++ n).data = v.data ++ '/' :: n.data := by
      simp [String.data_append]
    rw [this, splitSlash_append v.data n.data hslash]
    simp
  unfold Clean at hv ⊢
  rw [if_neg hvne] at hv
  rw [if_neg hpne]
  simp only [hhead, hsplit, List.foldl_append, List.foldl_cons, List.foldl_nil] at hv ⊢
  generalize hk : List.foldl (cleanStep (decide (v.data.head? = some '/'))) []
    ((splitSlash v.data).map String.mk) = kept at hv ⊢
  have hstep : cleanStep (decide (v.data.head? = some '/')) kept n = n :: kept := by
    simp [cleanStep, hne, hn1, hn2]
  rw [hstep]
  have hkept : kept ≠ [] := by
    intro h
    rw [h] at hv
    by_cases hr : v.data.head? = some '/'
    · simp [hr, strings.Join] at hv
      exact hroot hv.symm
    · simp [hr, strings.Join] at hv
      exact hdot hv.symm
  have hrev : kept.reverse ≠ [] := by simpa using hkept
  rw [List.reverse_cons, strings.Join_concat _ _ _ hrev]
  generalize (if v.data.head? = some '/' then "/" else "") = pre at hv ⊢
  by_cases hout : pre ++ strings.Join kept.reverse "/" = ""
  · rw [if_pos hout] at hv
    exact absurd hv.symm hdot
  · rw [if_neg hout] at hv
    have hfinal : pre ++ (strings.Join kept.reverse "/" ++ "/" ++ n) = v ++ "/" ++ n := by
      rw [← String.append_assoc, ← String.append_assoc, hv]
    rw [hfinal, if_neg hpne]

theorem foldl_append_string (acc : String) (l : List String) :
    l.foldl (fun r s => r ++ s) acc = acc ++ String.join l := by
  induction l generalizing acc with
  | nil => simp [String.join]
  | cons a rest ih =>
    rw [List.foldl_cons, ih]
    unfold String.join
    rw [List.foldl_cons, ih ("" ++ a), String.empty_append, String.append_assoc]
    rfl

theorem join_cons (a : String) (l : List String) : String.join (a :: l) = a ++ String.join l := by
  unfold String.join
  rw [List.foldl_cons, foldl_append_string, String.empty_append]
  rfl

theorem formatVars_eq_join (inputs : List (String × Value)) :
    formatVars inputs = String.join (inputs.map fun entry => formatVars [entry]) := by
  have step : ∀ (acc : String) (l : List (String × Value)),
      l.foldl (fun formattedVars entry =>
        let name := entry.1
        let value : Value :=
          match entry.2 with
          | .string vString =>
            let vString := "\"" ++ vString ++ "\""
            let vString :=
              if strings.Contains vString "\n" then strings.Replace vString "\n" "\\n" (-1)
              else vString
            .string vString
          | .strings valList => .string ("[\"" ++ strings.Join valList "\",\"" ++ "\"]")
          | other => other
        formattedVars ++ "\n" ++ name ++ "=" ++ fmt.verbS value) acc
        = acc ++ String.join (l.map fun entry => formatVars [entry]) := by
    intro acc l
    induction l generalizing acc with
    | nil => simp [String.join]
    | cons entry rest ih =>
      rw [List.foldl_cons, ih, List.map_cons, join_cons]
      simp only [formatVars, List.foldl_cons, List.foldl_nil, String.append_assoc,
        String.empty_append]
  have h := step "" inputs
  rw [String.empty_append] at h
  exact h

theorem Replace_all_eq (s old new : String) :
    strings.Replace s old new (-1) = ⟨strings.replaceFrom old.data new.data none 0 s.data⟩ := by
  rfl

theorem quoted_value (s : String) :
    (if strings.Contains ("\"" ++ s ++ "\"") "\n" = true then
        strings.Replace ("\"" ++ s ++ "\"") "\n" "\\n" (-1)
      else "\"" ++ s ++ "\"")
      = "\"" ++ strings.Replace s "\n" "\\n" (-1) ++ "\"" := by
  have hrep : strings.Replace ("\"" ++ s ++ "\"") "\n" "\\n" (-1)
      = "\"" ++ strings.Replace s "\n" "\\n" (-1) ++ "\"" := by
    apply String.ext
    simp only [Replace_all_eq, String.data_append]
    rw [strings.replaceFrom_newline_append, strings.replaceFrom_newline_append]
    rfl
  by_cases hc : strings.Contains ("\"" ++ s ++ "\"") "\n" = true
  · rw [if_pos hc, hrep]
  · rw [if_neg hc, ← hrep]
    apply String.ext
    simp only [Replace_all_eq]
    symm
    apply strings.replaceFrom_newline_absent
    simpa [strings.Contains] using hc

theorem formatVars_string (x s : String) :
    formatVars [(x, .string s)]
      = "\n" ++ x ++ "=" ++ "\"" ++ strings.Replace s "\n" "\\n" (-1) ++ "\"" := by
  simp only [formatVars, List.foldl_cons, List.foldl_nil, String.empty_append, quoted_value,
    fmt.verbS]
  simp only [String.append_assoc]

theorem quoted_join (a : String) (rest : List String) :
    "\"" ++ strings.Join (a :: rest) "\",\"" ++ "\""
      = strings.Join ((a :: rest).map fun item => "\"" ++ item ++ "\"") "," := by
  induction rest generalizing a with
  | nil => simp [strings.Join]
  | cons b rest ih =>
    simp only [List.map_cons, strings.Join] at ih ⊢
    rw [← ih b]
    apply String.ext
    simp [String.data_append]

/-- A non-empty list of strings is rendered as its elements, each between double
quotes, joined by commas, between brackets. -/
theorem formatVars_strings_nonempty (x : String) (l : List String) (hl : l ≠ []) :
    formatVars [(x, .strings l)]
      = "\n" ++ x ++ "=[" ++ strings.Join (l.map fun item => "\"" ++ item ++ "\"") "," ++ "]" := by
  cases l with
  | nil => exact absurd rfl hl
  | cons a rest =>
    rw [← quoted_join]
    simp only [formatVars, List.foldl_cons, List.foldl_nil, String.empty_append, fmt.verbS]
    apply String.ext
    simp [String.data_append]

theorem foldl_varFiles (varsDir : String) (listing : List FileInfo) (args : List String) :
    listing.foldl (fun args file =>
        if strings.HasSuffix file.Name ".tfvars" then
          args ++ ["-var-file", filepath.Join [varsDir, file.Name]]
        else args) args
      = args ++ specVarFileFlags varsDir listing := by
  induction listing generalizing args with
  | nil => simp [specVarFileFlags]
  | cons file rest ih =>
    rw [List.foldl_cons, ih]
    by_cases h : strings.HasSuffix file.Name ".tfvars" = true
    · simp [specVarFileFlags, h]
    · simp [specVarFileFlags, h]

theorem foldl_credentials (credentials : List (String × String)) (args : List String) :
    credentials.foldl (fun args entry => args ++ ["-var", entry.1 ++ "=" ++ entry.2]) args
      = args ++ specCredentialFlags credentials := by
  induction credentials generalizing args with
  | nil => simp [specCredentialFlags]
  | cons entry rest ih =>
    rw [List.foldl_cons, ih]
    simp [specCredentialFlags]

theorem length_specVarFileFlags (varsDir : String) (listing : List FileInfo) :
    (specVarFileFlags varsDir listing).length
      = 2 * listing.countP (fun file => strings.HasSuffix file.Name ".tfvars") := by
  induction listing with
  | nil => simp [specVarFileFlags]
  | cons file rest ih =>
    unfold specVarFileFlags at ih ⊢
    by_cases h : strings.HasSuffix file.Name ".tfvars" = true
    · simp [List.filter_cons, List.countP_cons, h] at ih ⊢
      omega
    · simp [List.filter_cons, List.countP_cons, h] at ih ⊢
      omega

theorem runTFCommand_run (e : Executor) (args : List String) (varsDir terraformDir : String)
    (listing : List FileInfo)
    (hv : e.stateStore.GetVarsDir = .ok varsDir)
    (hl : e.fs.ReadDir varsDir = .ok listing)
    (ht : e.stateStore.GetTerraformDir = .ok terraformDir) :
    e.runTFCommand args =
      ⟨[.ReadDir varsDir, .Run .Stdout (specArgs args varsDir terraformDir listing) e.debug],
        match (e.cmd.Run (specArgs args varsDir terraformDir listing) e.debug).err with
        | some err => if e.debug then some err else some redactedError
        | none => none⟩ := by
  unfold Executor.runTFCommand
  simp only [hv, hl, ht, foldl_varFiles]
  unfold specArgs
  cases (e.cmd.Run (args ++ ["-state", filepath.Join [varsDir, "terraform.tfstate"]] ++
    specVarFileFlags varsDir listing ++ [terraformDir]) e.debug).err <;> rfl

theorem tfvars_name_plain (n : String) (h : strings.HasSuffix n ".tfvars" = true) :
    n ≠ "" ∧ n ≠ "." ∧ n ≠ ".." := by
  have hlen : 7 ≤ n.data.length := by
    have := (List.isSuffixOf_iff_suffix.mp h).length_le
    simpa using this
  refine ⟨?_, ?_, ?_⟩ <;> intro hn <;> rw [hn] at hlen <;> simp at hlen

/-- In a clean variables directory that is neither the root nor `.`, the path of
the state file and of every `.tfvars` entry of the listing is the directory, a
separator and the name. -/
theorem specArgs_clean_dir (base : List String) (varsDir terraformDir : String)
    (listing : List FileInfo) (hv : filepath.Clean varsDir = varsDir) (hroot : varsDir ≠ "/")
    (hdot : varsDir ≠ ".") (hnames : ∀ file ∈ listing, '/' ∉ file.Name.data) :
    specArgs base varsDir terraformDir listing
      = base ++ ["-state", varsDir ++ "/" ++ "terraform.tfstate"] ++
          ((listing.filter fun file => strings.HasSuffix file.Name ".tfvars").flatMap
            fun file => ["-var-file", varsDir ++ "/" ++ file.Name]) ++ [terraformDir] := by
  have hstate : filepath.Join [varsDir, "terraform.tfstate"]
      = varsDir ++ "/" ++ "terraform.tfstate" :=
    filepath.Join_clean_dir varsDir "terraform.tfstate" hv hroot hdot (by decide) (by decide)
      (by decide) (by decide)
  have hflags : specVarFileFlags varsDir listing
      = (listing.filter fun file => strings.HasSuffix file.Name ".tfvars").flatMap
          fun file => ["-var-file", varsDir ++ "/" ++ file.Name] := by
    unfold specVarFileFlags
    induction listing with
    | nil => rfl
    | cons file rest ih =>
      have ih2 := ih (fun f hf => hnames f (List.mem_cons_of_mem _ hf))
      by_cases hs : strings.HasSuffix file.Name ".tfvars" = true
      · obtain ⟨h1, h2, h3⟩ := tfvars_name_plain file.Name hs
        have hj := filepath.Join_clean_dir varsDir file.Name hv hroot hdot
          (hnames file (List.mem_cons_self _ _)) h1 h2 h3
        simp only [List.filter_cons, hs, if_true, List.flatMap_cons, hj, ih2]
      · simp only [List.filter_cons, hs, if_false, Bool.false_eq_true, ih2]
  unfold specArgs
  rw [hstate, hflags]

theorem count_varFileFlags (varsDir : String) (listing : List FileInfo) :
    ((listing.filter fun file => strings.HasSuffix file.Name ".tfvars").flatMap
        fun file => ["-var-file", varsDir ++ "/" ++ file.Name]).count "-var-file"
      = listing.countP (fun file => strings.HasSuffix file.Name ".tfvars") := by
  induction listing with
  | nil => rfl
  | cons file rest ih =>
    by_cases hs : strings.HasSuffix file.Name ".tfvars" = true
    · have hne : ¬ (varsDir ++ "/" ++ file.Name = "-var-file") := by
        intro h
        have hmem : '/' ∈ (varsDir ++ "/" ++ file.Name).data := by
          simp [String.data_append]
        rw [h] at hmem
        exact absurd hmem (by decide)
      have hne2 : ¬ ((varsDir ++ "/" ++ file.Name == "-var-file") = true) := by
        simpa using hne
      simp only [List.filter_cons, hs, if_true, List.flatMap_cons,
        List.cons_append, List.nil_append, List.count_cons, ih, hne2, if_false, beq_self_eq_true,
        List.countP_cons]
      simp
    · simp only [List.filter_cons, hs, if_false, Bool.false_eq_true, ih, List.countP_cons]
      simp

theorem mapAssign_fresh (m : List (String × Value)) (k : String) (v : Value)
    (hk : k ∉ m.map Prod.fst) : mapAssign m k v = m ++ [(k, v)] := by
  unfold mapAssign
  have h : m.any (fun entry => decide (entry.1 = k)) = false := by
    rw [Bool.eq_false_iff]
    intro hany
    rw [List.any_eq_true] at hany
    obtain ⟨entry, hmem, heq⟩ := hany
    apply hk
    rw [List.mem_map]
    exact ⟨entry, hmem, of_decide_eq_true heq⟩
  simp [h]

theorem foldl_mapAssign (l : List (String × tfOutput)) (acc : List (String × Value))
    (hl : (l.map Prod.fst).Nodup) (hd : ∀ k ∈ l.map Prod.fst, k ∉ acc.map Prod.fst) :
    l.foldl (fun outputs entry => mapAssign outputs entry.1 entry.2.Value) acc
      = acc ++ l.map fun entry => (entry.1, entry.2.Value) := by
  induction l generalizing acc with
  | nil => simp
  | cons entry rest ih =>
    rw [List.map_cons, List.nodup_cons] at hl
    rw [List.foldl_cons, mapAssign_fresh acc entry.1 entry.2.Value (hd entry.1 (by simp))]
    rw [ih (acc ++ [(entry.1, entry.2.Value)]) hl.2]
    · simp
    · intro k hk
      simp only [List.map_append, List.map_cons, List.map_nil, List.mem_append,
        List.mem_singleton, not_or]
      refine ⟨hd k (by simp only [List.map_cons, List.mem_cons]; exact Or.inr hk), ?_⟩
      intro hke
      subst hke
      exact hl.1 hk

/-! ## The claims -/

/-- C1: when the command runner fails with `err` on the command line that Apply
(or Destroy) assembles, an executor constructed with `debug = false` returns
the fixed redaction message, whatever `err` is, and an executor constructed with
`debug = true` returns `err` itself. -/
theorem C1_redaction (cmd : terraformCmd) (store : stateStore) (files : fs) (debug : Bool)
    (credentials : List (String × String)) (varsDir terraformDir : String)
    (listing : List FileInfo) (err : error)
    (hv : store.GetVarsDir = .ok varsDir)
    (hl : files.ReadDir varsDir = .ok listing)
    (ht : store.GetTerraformDir = .ok terraformDir) :
    ((cmd.Run (specArgs (["apply", "--auto-approve"] ++ specCredentialFlags credentials)
          varsDir terraformDir listing) debug).err = some err →
      (debug = false →
        ((NewExecutor cmd store files debug).Apply credentials).result = some redactedError) ∧
      (debug = true →
        ((NewExecutor cmd store files debug).Apply credentials).result = some err)) ∧
    ((cmd.Run (specArgs (["destroy", "-force"] ++ specCredentialFlags credentials)
          varsDir terraformDir listing) debug).err = some err →
      (debug = false →
        ((NewExecutor cmd store files debug).Destroy credentials).result = some redactedError) ∧
      (debug = true →
        ((NewExecutor cmd store files debug).Destroy credentials).result = some err)) := by
  have key : ∀ base : List String,
      (cmd.Run (specArgs base varsDir terraformDir listing) debug).err = some err →
      ((NewExecutor cmd store files debug).runTFCommand base).result
        = if debug then some err else some redactedError := by
    intro base hrun
    rw [runTFCommand_run (NewExecutor cmd store files debug) base varsDir terraformDir listing
      hv hl ht]
    simp only [NewExecutor] at hrun ⊢
    rw [hrun]
  constructor
  · intro hrun
    have h := key _ hrun
    simp only [Executor.Apply, foldl_credentials]
    constructor
    · intro hd; rw [h, hd]; rfl
    · intro hd; rw [h, hd]; rfl
  · intro hrun
    have h := key _ hrun
    simp only [Executor.Destroy, foldl_credentials]
    constructor
    · intro hd; rw [h, hd]; rfl
    · intro hd; rw [h, hd]; rfl

/-- C1 at a concrete input: a runner failing with a message that echoes a
credential, in non-debug and in debug mode. -/
theorem C1_redaction_witness :
    ((NewExecutor (constCmd "" (some "apply failed: password=hunter2")) sampleStore
        (sampleFs []) false).Apply [("password", "hunter2")]).result = some redactedError ∧
    ((NewExecutor (constCmd "" (some "apply failed: password=hunter2")) sampleStore
        (sampleFs []) true).Apply [("password", "hunter2")]).result
      = some "apply failed: password=hunter2" :=
  ⟨((C1_redaction (constCmd "" (some "apply failed: password=hunter2")) sampleStore
      (sampleFs []) false [("password", "hunter2")] "/env/vars" "/env/terraform" sampleListing
      "apply failed: password=hunter2" rfl rfl rfl).1 rfl).1 rfl,
   ((C1_redaction (constCmd "" (some "apply failed: password=hunter2")) sampleStore
      (sampleFs []) true [("password", "hunter2")] "/env/vars" "/env/terraform" sampleListing
      "apply failed: password=hunter2" rfl rfl rfl).1 rfl).2 rfl⟩

/-- C2: when the lookups succeed, the argument list handed to the command runner
by `runTFCommand` (and so by Apply and Destroy, whose base arguments are the
subcommand, its flag and one `-var name=value` pair per credential) is the base
arguments, then `-state` and the path of `terraform.tfstate` in the variables
directory, then one `-var-file` pair per listing entry ending in `.tfvars`, in
listing order, then the working directory; the `-var-file` part holds exactly
two arguments per such entry.  The paths are those `filepath.Join` forms; in a
clean variables directory they are the directory, a separator and the name, and
the number of `-var-file` flags is the number of entries ending in `.tfvars`. -/
theorem C2_command_assembly (e : Executor) (base : List String)
    (credentials : List (String × String)) (varsDir terraformDir : String)
    (listing : List FileInfo)
    (hv : e.stateStore.GetVarsDir = .ok varsDir)
    (hl : e.fs.ReadDir varsDir = .ok listing)
    (ht : e.stateStore.GetTerraformDir = .ok terraformDir) :
    (e.runTFCommand base).effects
      = [.ReadDir varsDir,
          .Run .Stdout
            (base ++ ["-state", filepath.Join [varsDir, "terraform.tfstate"]] ++
              ((listing.filter fun file => strings.HasSuffix file.Name ".tfvars").flatMap
                fun file => ["-var-file", filepath.Join [varsDir, file.Name]]) ++
              [terraformDir]) e.debug] ∧
    (e.Apply credentials).effects
      = [.ReadDir varsDir,
          .Run .Stdout (specArgs (["apply", "--auto-approve"] ++ specCredentialFlags credentials)
            varsDir terraformDir listing) e.debug] ∧
    (e.Destroy credentials).effects
      = [.ReadDir varsDir,
          .Run .Stdout (specArgs (["destroy", "-force"] ++ specCredentialFlags credentials)
            varsDir terraformDir listing) e.debug] ∧
    (specVarFileFlags varsDir listing).length
      = 2 * listing.countP (fun file => strings.HasSuffix file.Name ".tfvars") ∧
    (filepath.Clean varsDir = varsDir → varsDir ≠ "/" → varsDir ≠ "." →
      (∀ file ∈ listing, '/' ∉ file.Name.data) →
      (e.runTFCommand base).effects
        = [.ReadDir varsDir,
            .Run .Stdout
              (base ++ ["-state", varsDir ++ "/" ++ "terraform.tfstate"] ++
                ((listing.filter fun file => strings.HasSuffix file.Name ".tfvars").flatMap
                  fun file => ["-var-file", varsDir ++ "/" ++ file.Name]) ++
                [terraformDir]) e.debug] ∧
      ((listing.filter fun file => strings.HasSuffix file.Name ".tfvars").flatMap
          fun file => ["-var-file", varsDir ++ "/" ++ file.Name]).count "-var-file"
        = listing.countP (fun file => strings.HasSuffix file.Name ".tfvars")) := by
  refine ⟨?_, ?_, ?_, length_specVarFileFlags varsDir listing, ?_⟩
  · rw [runTFCommand_run e base varsDir terraformDir listing hv hl ht]
    rfl
  · simp only [Executor.Apply, foldl_credentials]
    rw [runTFCommand_run e _ varsDir terraformDir listing hv hl ht]
  · simp only [Executor.Destroy, foldl_credentials]
    rw [runTFCommand_run e _ varsDir terraformDir listing hv hl ht]
  · intro hclean hroot hdot hnames
    refine ⟨?_, count_varFileFlags varsDir listing⟩
    rw [runTFCommand_run e base varsDir terraformDir listing hv hl ht,
      specArgs_clean_dir base varsDir terraformDir listing hclean hroot hdot hnames]

/-- C2 at a concrete input: a variables directory listing `a.tfvars`, an
unrelated file and `b.tfvars` gives exactly two `-var-file` flags. -/
theorem C2_command_assembly_witness :
    ((NewExecutor (constCmd "" none) sampleStore (sampleFs []) false).Apply
        [("project", "p1")]).effects
      = [.ReadDir "/env/vars",
          .Run .Stdout ["apply", "--auto-approve", "-var", "project=p1",
            "-state", "/env/vars/terraform.tfstate",
            "-var-file", "/env/vars/a.tfvars", "-var-file", "/env/vars/b.tfvars",
            "/env/terraform"] false] ∧
    (specArgs (["apply", "--auto-approve"] ++ specCredentialFlags [("project", "p1")])
        "/env/vars" "/env/terraform" sampleListing).count "-var-file" = 2 :=
  ⟨(C2_command_assembly (NewExecutor (constCmd "" none) sampleStore (sampleFs []) false) []
      [("project", "p1")] "/env/vars" "/env/terraform" sampleListing rfl rfl rfl).2.1.trans
      (by decide),
    by decide⟩

/-- C3 as stated fails: a string holding both a newline and the two characters
backslash, `n` is not recovered by reversing the escape. -/
theorem C3_counterexample :
    strings.Contains "a\\nb\nc" "\n" = true ∧
    formatVars [("x", .string "a\\nb\nc")] = "\nx=" ++ "\"" ++ "a\\nb\\nc" ++ "\"" ∧
    strings.Replace "a\\nb\\nc" "\\n" "\n" (-1) = "a\nb\nc" ∧
    strings.Replace "a\\nb\\nc" "\\n" "\n" (-1) ≠ "a\\nb\nc" := by
  decide

/-- C3, amended: the value of a string entry is the string with every newline
replaced by backslash, `n`, between double quotes; it holds no newline; and when
the string has no occurrence of the two characters backslash, `n`, replacing
every backslash, `n` of the value by a newline gives back the string (between
its quotes, or without them). -/
theorem C3_newline_escaping (x s : String) :
    formatVars [(x, .string s)]
      = "\n" ++ x ++ "=" ++ "\"" ++ strings.Replace s "\n" "\\n" (-1) ++ "\"" ∧
    '\n' ∉ ("\"" ++ strings.Replace s "\n" "\\n" (-1) ++ "\"").data ∧
    (strings.Contains s "\\n" = false →
      strings.Replace (strings.Replace s "\n" "\\n" (-1)) "\\n" "\n" (-1) = s ∧
      strings.Replace ("\"" ++ strings.Replace s "\n" "\\n" (-1) ++ "\"") "\\n" "\n" (-1)
        = "\"" ++ s ++ "\"") := by
  refine ⟨formatVars_string x s, ?_, ?_⟩
  · have h := strings.newline_not_mem_escaped s.data
    simp only [Replace_all_eq, String.data_append, List.mem_append, not_or]
    exact ⟨⟨by decide, h⟩, by decide⟩
  · intro hs
    have hs2 : strings.containsFrom ['\\', 'n'] s.data = false := hs
    constructor
    · apply String.ext
      simp only [Replace_all_eq]
      have h := strings.unescape_escaped s.data [] hs2 (by simp)
      simpa [strings.replaceFrom] using h
    · apply String.ext
      simp only [Replace_all_eq, String.data_append]
      have h := strings.unescape_escaped s.data ['"'] hs2 (by simp)
      have h0 : strings.replaceFrom ['\\', 'n'] ['\n'] none 0
          (['"'] ++ strings.replaceFrom ['\n'] ['\\', 'n'] none 0 s.data ++ ['"'])
          = '"' :: strings.replaceFrom ['\\', 'n'] ['\n'] none 0
              (strings.replaceFrom ['\n'] ['\\', 'n'] none 0 s.data ++ ['"']) := by
        simp [strings.replaceFrom, List.isPrefixOf]
      have h1 : strings.replaceFrom ['\\', 'n'] ['\n'] none 0 ['"'] = ['"'] := by decide
      change strings.replaceFrom ['\\', 'n'] ['\n'] none 0
          (['"'] ++ strings.replaceFrom ['\n'] ['\\', 'n'] none 0 s.data ++ ['"'])
        = ['"'] ++ s.data ++ ['"']
      rw [h0, h, h1]
      simp

/-- C3, amended, at a concrete input: a two-line string. -/
theorem C3_newline_escaping_witness :
    formatVars [("cert", .string "line1\nline2")] = "\ncert=\"line1\\nline2\"" ∧
    strings.Replace (strings.Replace "line1\nline2" "\n" "\\n" (-1)) "\\n" "\n" (-1)
      = "line1\nline2" :=
  ⟨by decide, ((C3_newline_escaping "cert" "line1\nline2").2.2 (by decide)).1⟩

/-- C4 at the failing input: the empty list is rendered as a list holding one
empty string, not as the empty list; the two-element list `a`, `b` is rendered
as the specification writes it. -/
theorem C4_empty_list :
    formatVars [("x", .strings [])] = "\nx=[\"\"]" ∧
    formatVars [("x", .strings [])] ≠ "\nx=[]" ∧
    formatVars [("x", .strings ["a", "b"])] = "\nx=[\"a\",\"b\"]" := by
  decide

/-- C5 as stated fails: the same two variables visited in two orders give two
different contents of `bbl.tfvars`. -/
theorem C5_counterexample :
    [("a", Value.string "1"), ("b", Value.string "2")].Perm
      [("b", Value.string "2"), ("a", Value.string "1")] ∧
    Executor.Setup 0o640 mkdirOk (NewExecutor (constCmd "" none) sampleStore (sampleFs []) false)
        "# empty template" [("a", .string "1"), ("b", .string "2")]
      = ⟨[.WriteFile "/env/terraform/bbl-template.tf" "# empty template" 0o640,
          .MkdirAll "/env/terraform/.terraform" 0o777,
          .WriteFile "/env/terraform/.terraform/.gitignore" "*\n" 0o640,
          .WriteFile "/env/vars/bbl.tfvars" "\na=\"1\"\nb=\"2\"" 0o640], none⟩ ∧
    Executor.Setup 0o640 mkdirOk (NewExecutor (constCmd "" none) sampleStore (sampleFs []) false)
        "# empty template" [("b", .string "2"), ("a", .string "1")]
      = ⟨[.WriteFile "/env/terraform/bbl-template.tf" "# empty template" 0o640,
          .MkdirAll "/env/terraform/.terraform" 0o777,
          .WriteFile "/env/terraform/.terraform/.gitignore" "*\n" 0o640,
          .WriteFile "/env/vars/bbl.tfvars" "\nb=\"2\"\na=\"1\"" 0o640], none⟩ ∧
    formatVars [("a", .string "1"), ("b", .string "2")]
      ≠ formatVars [("b", .string "2"), ("a", .string "1")] :=
  ⟨List.Perm.swap _ _ _, by decide, by decide, by decide⟩

/-- C5, amended: with collaborators that succeed, two calls of Setup with the same
template and the same variables (visited in any two orders) both return no
error and issue the same four calls, the template and the `.gitignore` marker
with identical contents; the contents of `bbl.tfvars` are the lines of the
entries in the order visited, so the two calls write the same lines up to
their order, and the two calls are identical when the entries are visited in
the same order or there is at most one entry. -/
theorem C5_setup_twice (StateMode : Nat) (MkdirAll : String → Nat → Option error) (e : Executor)
    (template terraformDir varsDir : String) (first second : List (String × Value))
    (ht : e.stateStore.GetTerraformDir = .ok terraformDir)
    (hv : e.stateStore.GetVarsDir = .ok varsDir)
    (hw : ∀ path data perm, e.fs.WriteFile path data perm = none)
    (hm : ∀ path perm, MkdirAll path perm = none)
    (hperm : first.Perm second) :
    (∀ input, e.Setup StateMode MkdirAll template input
      = ⟨[.WriteFile (filepath.Join [terraformDir, "bbl-template.tf"]) template StateMode,
          .MkdirAll (filepath.Join [terraformDir, ".terraform"]) os.ModePerm,
          .WriteFile (filepath.Join [terraformDir, ".terraform", ".gitignore"]) "*\n" StateMode,
          .WriteFile (filepath.Join [varsDir, "bbl.tfvars"]) (formatVars input) StateMode],
          none⟩) ∧
    formatVars first = String.join (first.map fun entry => formatVars [entry]) ∧
    formatVars second = String.join (second.map fun entry => formatVars [entry]) ∧
    (first.map fun entry => formatVars [entry]).Perm
      (second.map fun entry => formatVars [entry]) ∧
    (first = second ∨ first.length ≤ 1 →
      e.Setup StateMode MkdirAll template first = e.Setup StateMode MkdirAll template second) := by
  refine ⟨?_, formatVars_eq_join first, formatVars_eq_join second, hperm.map _, ?_⟩
  · intro input
    simp [Executor.Setup, ht, hv, hw, hm]
  · intro h
    have heq : first = second := by
      rcases h with h | h
      · exact h
      · match first, hperm, h with
        | [], hp, _ => exact (List.Perm.nil_eq hp)
        | [a], hp, _ => exact (List.perm_singleton.mp hp.symm).symm
        | _ :: _ :: _, _, hlen => simp at hlen
    rw [heq]

/-- C5, amended, at a concrete input: one variable, written twice. -/
theorem C5_setup_twice_witness :
    Executor.Setup 0o640 mkdirOk (NewExecutor (constCmd "" none) sampleStore (sampleFs []) false)
        "# empty template" [("region", .string "us-west-1")]
      = ⟨[.WriteFile "/env/terraform/bbl-template.tf" "# empty template" 0o640,
          .MkdirAll "/env/terraform/.terraform" 0o777,
          .WriteFile "/env/terraform/.terraform/.gitignore" "*\n" 0o640,
          .WriteFile "/env/vars/bbl.tfvars" "\nregion=\"us-west-1\"" 0o640], none⟩ :=
  ((C5_setup_twice 0o640 mkdirOk (NewExecutor (constCmd "" none) sampleStore (sampleFs []) false)
    "# empty template" "/env/terraform" "/env/vars" [("region", .string "us-west-1")]
    [("region", .string "us-west-1")] rfl rfl (fun _ _ _ => rfl) (fun _ _ => rfl)
    (List.Perm.refl _)).1 [("region", .string "us-west-1")]).trans (by decide)

/-- C6 at the failing inputs: the specification's example yields `0.12.3` and a
text without digits yields the parse error, but a text with no dotted triplet
is accepted when digits are separated by any other character (or by digits),
and a text holding a dotted triplet yields an earlier token that is not one. -/
theorem C6_version :
    (Executor.Version (NewExecutor (constCmd "Terraform v0.12.3\n+ provider.aws v2.1.0" none)
        sampleStore (sampleFs []) false)).result = ("0.12.3", none) ∧
    (Executor.Version (NewExecutor (constCmd "Terraform is not installed" none)
        sampleStore (sampleFs []) false)).result
      = ("", some "Terraform version could not be parsed") ∧
    (Executor.Version (NewExecutor (constCmd "Terraform build 12345" none)
        sampleStore (sampleFs []) false)).result = ("12345", none) ∧
    (Executor.Version (NewExecutor (constCmd "Terraform v0-12-3" none)
        sampleStore (sampleFs []) false)).result = ("0-12-3", none) ∧
    (Executor.Version (NewExecutor (constCmd "2019 06 24 Terraform v0.12.3\n" none)
        sampleStore (sampleFs []) false)).result = ("2019 06 24", none) := by
  decide

/-- C7: when the variables-directory lookup and both runs succeed and the captured
text decodes as a map of outputs, Outputs returns no error and a map with the
same names in which each name has the value of its entry, the sensitivity flag
and the type dropped. -/
theorem C7_outputs (Unmarshal : String → Except error (List (String × tfOutput)))
    (e : Executor) (varsDir : String) (decoded : List (String × tfOutput))
    (hv : e.stateStore.GetVarsDir = .ok varsDir)
    (hinit : (e.cmd.Run ["init", varsDir] false).err = none)
    (hout : (e.cmd.Run ["output", "--json", "-state",
      filepath.Join [varsDir, "terraform.tfstate"]] true).err = none)
    (hdec : Unmarshal (e.cmd.Run ["output", "--json", "-state",
      filepath.Join [varsDir, "terraform.tfstate"]] true).output = .ok decoded)
    (hkeys : (decoded.map Prod.fst).Nodup) :
    (e.Outputs Unmarshal).result = (decoded.map fun entry => (entry.1, entry.2.Value), none) ∧
    (e.Outputs Unmarshal).result.1.map Prod.fst = decoded.map Prod.fst := by
  have h : (e.Outputs Unmarshal).result
      = (decoded.map fun entry => (entry.1, entry.2.Value), none) := by
    unfold Executor.Outputs
    simp only [hv, hinit, hout, hdec]
    rw [foldl_mapAssign decoded [] hkeys (by simp)]
    rfl
  refine ⟨h, ?_⟩
  rw [h]
  simp [Function.comp_def]

/-- C7 at the specification's example: one output `foo` with value `bar`. -/
theorem C7_outputs_witness :
    (Executor.Outputs sampleUnmarshal
      (NewExecutor (constCmd sampleOutputsJSON none) sampleStore (sampleFs []) false)).result
      = ([("foo", .string "bar")], none) :=
  (C7_outputs sampleUnmarshal
    (NewExecutor (constCmd sampleOutputsJSON none) sampleStore (sampleFs []) false) "/env/vars"
    [("foo", { Sensitive := false, Type_ := "string", Value := .string "bar" })]
    rfl rfl rfl rfl (by decide)).1

/-- C8 as stated fails: with a failing variables-directory lookup IsPaved
returns an error. -/
theorem C8_counterexample :
    (Executor.IsPaved (NewExecutor (constCmd "" none) noVarsDirStore (sampleFs []) false)).result
      = (false, some "Get vars dir: no state directory") := by
  decide

/-- C8, amended: when the variables-directory lookup succeeds IsPaved returns a
nil error, and returns true exactly when Stat of the state file's path in the
variables directory succeeds; when the lookup fails it returns false and the
error of the lookup, without calling Stat. -/
theorem C8_isPaved (e : Executor) :
    (∀ varsDir, e.stateStore.GetVarsDir = .ok varsDir →
      e.IsPaved.result.2 = none ∧
      (e.IsPaved.result.1 = true ↔
        ∃ info, e.fs.Stat (filepath.Join [varsDir, "terraform.tfstate"]) = .ok info) ∧
      e.IsPaved.effects = [.Stat (filepath.Join [varsDir, "terraform.tfstate"])]) ∧
    (∀ err, e.stateStore.GetVarsDir = .error err →
      e.IsPaved.result = (false, some ("Get vars dir: " ++ err)) ∧ e.IsPaved.effects = []) := by
  constructor
  · intro varsDir hv
    unfold Executor.IsPaved
    simp only [hv]
    cases hs : e.fs.Stat (filepath.Join [varsDir, "terraform.tfstate"]) with
    | error err => simp
    | ok info => simp
  · intro err hv
    simp [Executor.IsPaved, hv]

/-- C8, amended, at concrete inputs: the state file absent, then present. -/
theorem C8_isPaved_witness :
    (Executor.IsPaved (NewExecutor (constCmd "" none) sampleStore (sampleFs []) false)).result
      = (false, none) ∧
    (Executor.IsPaved (NewExecutor (constCmd "" none) sampleStore
        (sampleFs ["/env/vars/terraform.tfstate"]) false)).result = (true, none) ∧
    (Executor.IsPaved (NewExecutor (constCmd "" none) sampleStore (sampleFs []) false)).result.2
      = none :=
  ⟨by decide, by decide,
    ((C8_isPaved (NewExecutor (constCmd "" none) sampleStore (sampleFs []) false)).1
      "/env/vars" rfl).1⟩

/-- C9 as stated fails for Setup: with a failing variables-directory lookup
Setup has already written the template when it returns the lookup's error. -/
theorem C9_counterexample :
    Executor.Setup 0o640 mkdirOk
        (NewExecutor (constCmd "" none) noVarsDirStore (sampleFs []) false)
        "# empty template" [("region", .string "us-west-1")]
      = ⟨[.WriteFile "/env/terraform/bbl-template.tf" "# empty template" 0o640],
          some "Get vars dir: no state directory"⟩ := by
  decide

/-- C9, amended: a failing lookup makes Init, Apply, Destroy, Output, Outputs and
IsPaved return the error naming that lookup with no write and no command run
issued before it (Apply and Destroy have read the directory listing when it is
the working-directory lookup that fails); Setup does so when its
working-directory lookup fails, and when its variables-directory lookup fails
it returns the error naming that lookup after exactly one write, the template. -/
theorem C9_lookup_failures (e : Executor) (err : error) :
    (e.stateStore.GetTerraformDir = .error err →
      (∀ StateMode MkdirAll template input,
        e.Setup StateMode MkdirAll template input
          = ⟨[], some ("Get terraform dir: " ++ err)⟩) ∧
      e.Init = ⟨[], some ("Get terraform dir: " ++ err)⟩ ∧
      (∀ outputName, e.Output outputName = ⟨[], ("", some ("Get terraform dir: " ++ err))⟩) ∧
      (∀ varsDir listing, e.stateStore.GetVarsDir = .ok varsDir →
        e.fs.ReadDir varsDir = .ok listing →
        ∀ credentials,
          e.Apply credentials = ⟨[.ReadDir varsDir], some ("Get terraform dir: " ++ err)⟩ ∧
          e.Destroy credentials = ⟨[.ReadDir varsDir], some ("Get terraform dir: " ++ err)⟩)) ∧
    (e.stateStore.GetVarsDir = .error err →
      (∀ credentials,
        e.Apply credentials = ⟨[], some ("Get vars dir: " ++ err)⟩ ∧
        e.Destroy credentials = ⟨[], some ("Get vars dir: " ++ err)⟩) ∧
      (∀ Unmarshal, e.Outputs Unmarshal = ⟨[], ([], some ("Get vars dir: " ++ err))⟩) ∧
      e.IsPaved = ⟨[], (false, some ("Get vars dir: " ++ err))⟩ ∧
      (∀ terraformDir, e.stateStore.GetTerraformDir = .ok terraformDir →
        (∀ outputName, e.Output outputName = ⟨[], ("", some ("Get vars dir: " ++ err))⟩) ∧
        (∀ StateMode MkdirAll template input,
          e.fs.WriteFile (filepath.Join [terraformDir, "bbl-template.tf"]) template StateMode
            = none →
          e.Setup StateMode MkdirAll template input
            = ⟨[.WriteFile (filepath.Join [terraformDir, "bbl-template.tf"]) template StateMode],
                some ("Get vars dir: " ++ err)⟩))) := by
  constructor
  · intro ht
    refine ⟨?_, ?_, ?_, ?_⟩
    · intro StateMode MkdirAll template input
      simp [Executor.Setup, ht]
    · simp [Executor.Init, ht]
    · intro outputName
      simp [Executor.Output, ht]
    · intro varsDir listing hv hl credentials
      simp [Executor.Apply, Executor.Destroy, Executor.runTFCommand, hv, hl, ht]
  · intro hv
    refine ⟨?_, ?_, ?_, ?_⟩
    · intro credentials
      simp [Executor.Apply, Executor.Destroy, Executor.runTFCommand, hv]
    · intro Unmarshal
      simp [Executor.Outputs, hv]
    · simp [Executor.IsPaved, hv]
    · intro terraformDir ht
      constructor
      · intro outputName
        simp [Executor.Output, ht, hv]
      · intro StateMode MkdirAll template input hw
        simp [Executor.Setup, ht, hv, hw]

/-- C9, amended, at concrete inputs: Apply with a failing variables-directory
lookup, and Init with a failing working-directory lookup, issue no call. -/
theorem C9_lookup_failures_witness :
    Executor.Apply (NewExecutor (constCmd "" none) noVarsDirStore (sampleFs []) false)
        [("password", "hunter2")]
      = ⟨[], some "Get vars dir: no state directory"⟩ ∧
    Executor.Init (NewExecutor (constCmd "" none) noTerraformDirStore (sampleFs []) false)
      = ⟨[], some "Get terraform dir: no state directory"⟩ :=
  ⟨(((C9_lookup_failures (NewExecutor (constCmd "" none) noVarsDirStore (sampleFs []) false)
      "no state directory").2 rfl).1 [("password", "hunter2")]).1,
    ((C9_lookup_failures (NewExecutor (constCmd "" none) noTerraformDirStore (sampleFs []) false)
      "no state directory").1 rfl).2.1⟩

/-- C10 at the failing inputs: an integer and a boolean are rendered as the
bad-verb text of `%s`, not as their default text. -/
theorem C10_other_values :
    formatVars [("x", .int 5)] = "\nx=%!s(int=5)" ∧
    formatVars [("x", .int 5)] ≠ "\nx=5" ∧
    formatVars [("x", .bool true)] = "\nx=%!s(bool=true)" ∧
    formatVars [("x", .bool true)] ≠ "\nx=true" := by
  decide

end terraform
